import Mathlib

/-!
Verification of the kiwix-downloader program (src/kiwix-downloader.py):
a shallow embedding of its progress ledger, filename derivation, resume
setup, retry loop and orchestrator filter, together with theorems about
the specified properties.

Modelling conventions:
  - A Python dict mapping URL strings to status strings is a function
    `String → Option String` (`Ledger`); dict update is pointwise update.
  - Machine integers never overflow here (file sizes, retry counters),
    so they are plain `Nat`; the MD5 kernel works modulo `2 ^ 32`
    with explicit `% (2 ^ 32)`.
  - The filesystem state relevant to one call is the target file, held
    as `Option Nat` (its size; `none` = no file at the path).
  - HTTP attempts are driven by an oracle `Nat → AttemptResult` giving
    each attempt's outcome, covering success, a `requests.RequestException`
    raised before any byte is written (connection error or
    `raise_for_status`), a `RequestException` in mid-stream after some
    bytes were flushed, and a non-request local exception.
-/

set_option autoImplicit false

namespace Kiwix

/-! ### Progress ledger (Python dict url → status) -/

/-- The in-memory progress mapping: Python dict from URL to status string. -/
def Ledger : Type := String → Option String

/-- The empty dict (`{}` in Python, line 39). -/
def Ledger.empty : Ledger := fun _ => none

/-- Dict update `progress[url] = status`. -/
def Ledger.set (m : Ledger) (k v : String) : Ledger :=
  fun x => if x = k then some v else m x

/-! ### URL parsing: the path component, as `urllib.parse.urlparse(url).path`

`urlsplit` (CPython) removes the scheme when the text before the first
colon is a nonempty run of scheme characters starting with a letter,
removes the network location when the remainder starts with `//`
(up to the first of `/`, `?`, `#`), then strips the fragment (first `#`)
and the query (first `?`); what remains is the path. -/

/-- Characters allowed in a URL scheme (letters, digits, `+`, `-`, `.`). -/
def schemeChar (c : Char) : Bool :=
  c.isAlpha || c.isDigit || c == '+' || c == '-' || c == '.'

/-- Remove `scheme:` from the front when present, as `urlsplit` does. -/
def stripScheme (cs : List Char) : List Char :=
  match cs.dropWhile (fun c => c != ':') with
  | [] => cs
  | _ :: rest =>
    let pre := cs.takeWhile (fun c => c != ':')
    if pre ≠ [] ∧ pre.all schemeChar ∧ (pre.headD ' ').isAlpha then rest else cs

/-- Remove `//netloc` from the front when present: the network location
runs to the first of `/`, `?`, `#`. -/
def stripNetloc (cs : List Char) : List Char :=
  match cs with
  | '/' :: '/' :: rest => rest.dropWhile (fun c => !(c == '/' || c == '?' || c == '#'))
  | _ => cs

/-- Drop the fragment: everything from the first `#` on. -/
def stripFragment (cs : List Char) : List Char :=
  cs.takeWhile (fun c => c != '#')

/-- Drop the query: everything from the first `?` on. -/
def stripQuery (cs : List Char) : List Char :=
  cs.takeWhile (fun c => c != '?')

/-- `urllib.parse.urlparse(url).path`. -/
def urlPath (url : String) : String :=
  ⟨stripQuery (stripFragment (stripNetloc (stripScheme url.data)))⟩

/-! ### `os.path.basename` and `os.path.join` (posix) -/

/-- The part of the list after the last `/`. -/
def basenameList (cs : List Char) : List Char :=
  (cs.reverse.takeWhile (fun c => c != '/')).reverse

/-- `os.path.basename`: the substring after the last `/`. -/
def basename (p : String) : String :=
  ⟨basenameList p.data⟩

/-- `os.path.join(dir, f)` for two posix components: `f` wins if absolute;
otherwise a `/` separator is inserted unless `dir` is empty or already
ends in `/`. -/
def pathJoin (dir f : String) : String :=
  if f.data.headD ' ' = '/' then f
  else if dir = "" ∨ dir.data.getLastD ' ' = '/' then dir ++ f
  else dir ++ "/" ++ f

/-! ### MD5 (`hashlib.md5`), over UTF-8 bytes, words as `Nat` mod `2 ^ 32` -/

/-- UTF-8 encoding of one code point, as byte values. -/
def utf8Bytes (c : Char) : List Nat :=
  let n := c.toNat
  if n < 0x80 then [n]
  else if n < 0x800 then [0xC0 + n / 64, 0x80 + n % 64]
  else if n < 0x10000 then [0xE0 + n / 4096, 0x80 + n / 64 % 64, 0x80 + n % 64]
  else [0xF0 + n / 262144, 0x80 + n / 4096 % 64, 0x80 + n / 64 % 64, 0x80 + n % 64]

/-- `url.encode()`: UTF-8 bytes of a string. -/
def strBytes (s : String) : List Nat :=
  (s.data.map utf8Bytes).flatten

/-- The 64 MD5 round constants `K[i] = floor(abs(sin(i+1)) * 2^32)`. -/
def md5K : List Nat :=
  [3614090360, 3905402710, 606105819, 3250441966, 4118548399, 1200080426,
   2821735955, 4249261313, 1770035416, 2336552879, 4294925233, 2304563134,
   1804603682, 4254626195, 2792965006, 1236535329, 4129170786, 3225465664,
   643717713, 3921069994, 3593408605, 38016083, 3634488961, 3889429448,
   568446438, 3275163606, 4107603335, 1163531501, 2850285829, 4243563512,
   1735328473, 2368359562, 4294588738, 2272392833, 1839030562, 4259657740,
   2763975236, 1272893353, 4139469664, 3200236656, 681279174, 3936430074,
   3572445317, 76029189, 3654602809, 3873151461, 530742520, 3299628645,
   4096336452, 1126891415, 2878612391, 4237533241, 1700485571, 2399980690,
   4293915773, 2240044497, 1873313359, 4264355552, 2734768916, 1309151649,
   4149444226, 3174756917, 718787259, 3951481745]

/-- The 64 MD5 per-round left-rotation amounts. -/
def md5S : List Nat :=
  [7, 12, 17, 22, 7, 12, 17, 22, 7, 12, 17, 22, 7, 12, 17, 22,
   5, 9, 14, 20, 5, 9, 14, 20, 5, 9, 14, 20, 5, 9, 14, 20,
   4, 11, 16, 23, 4, 11, 16, 23, 4, 11, 16, 23, 4, 11, 16, 23,
   6, 10, 15, 21, 6, 10, 15, 21, 6, 10, 15, 21, 6, 10, 15, 21]

/-- 32-bit left rotation on a word below `2 ^ 32`. -/
def rotl32 (x k : Nat) : Nat :=
  (x * 2 ^ k + x / 2 ^ (32 - k)) % 2 ^ 32

/-- Bitwise complement on a 32-bit word. -/
def not32 (x : Nat) : Nat := 2 ^ 32 - 1 - x

/-- MD5 padding: append `0x80`, zeros to 56 mod 64, then the bit length
as 8 little-endian bytes. -/
def md5pad (msg : List Nat) : List Nat :=
  let padLen := (64 + 56 - (msg.length + 1) % 64) % 64
  let bitLen := msg.length * 8
  msg ++ [0x80] ++ List.replicate padLen 0 ++
    (List.range 8).map (fun i => bitLen / 2 ^ (8 * i) % 256)

/-- Group bytes into little-endian 32-bit words. -/
def leWords : List Nat → List Nat
  | b0 :: b1 :: b2 :: b3 :: rest =>
    (b0 + b1 * 256 + b2 * 65536 + b3 * 16777216) :: leWords rest
  | _ => []

/-- One MD5 round `i` on state `(a, b, c, d)` with message words `m`. -/
def md5Round (m : List Nat) (st : Nat × Nat × Nat × Nat) (i : Nat) :
    Nat × Nat × Nat × Nat :=
  let (a, b, c, d) := st
  let f :=
    if i < 16 then b &&& c ||| not32 b &&& d
    else if i < 32 then d &&& b ||| not32 d &&& c
    else if i < 48 then b ^^^ c ^^^ d
    else c ^^^ (b ||| not32 d)
  let g :=
    if i < 16 then i
    else if i < 32 then (5 * i + 1) % 16
    else if i < 48 then (3 * i + 5) % 16
    else (7 * i) % 16
  let tmp := (a + f + md5K.getD i 0 + m.getD g 0) % 2 ^ 32
  (d, (b + rotl32 tmp (md5S.getD i 0)) % 2 ^ 32, b, c)

/-- Process one 16-word block, adding the round result into the state. -/
def md5Block (st : Nat × Nat × Nat × Nat) (m : List Nat) :
    Nat × Nat × Nat × Nat :=
  let (a0, b0, c0, d0) := st
  let (a, b, c, d) := (List.range 64).foldl (md5Round m) st
  ((a0 + a) % 2 ^ 32, (b0 + b) % 2 ^ 32, (c0 + c) % 2 ^ 32, (d0 + d) % 2 ^ 32)

/-- Split a word list into successive blocks of 16 words. -/
def blocks16 (fuel : Nat) (ws : List Nat) : List (List Nat) :=
  match fuel with
  | 0 => []
  | fuel' + 1 =>
    match ws with
    | [] => []
    | _ => ws.take 16 :: blocks16 fuel' (ws.drop 16)

/-- The 4 little-endian bytes of a 32-bit word. -/
def wordLEBytes (w : Nat) : List Nat :=
  (List.range 4).map (fun i => w / 2 ^ (8 * i) % 256)

/-- MD5 digest of a byte list: 16 bytes. -/
def md5Bytes (msg : List Nat) : List Nat :=
  let ws := leWords (md5pad msg)
  let st :=
    (blocks16 ws.length ws).foldl md5Block
      (0x67452301, 0xefcdab89, 0x98badcfe, 0x10325476)
  wordLEBytes st.1 ++ wordLEBytes st.2.1 ++ wordLEBytes st.2.2.1 ++ wordLEBytes st.2.2.2

/-- One lowercase hex digit for a value below 16. -/
def hexDigit (n : Nat) : Char :=
  if n < 10 then Char.ofNat (48 + n) else Char.ofNat (87 + n)

/-- Two lowercase hex digits of a byte. -/
def byteHex (b : Nat) : List Char :=
  [hexDigit (b / 16 % 16), hexDigit (b % 16)]

/-- `hashlib.md5(s.encode()).hexdigest()`. -/
def md5hex (s : String) : String :=
  ⟨((md5Bytes (strBytes s)).map byteHex).flatten⟩

/-! ### `get_filename_from_url` (lines 30-33) -/

/-- Line 30-33: the filename is the basename of the URL's path component;
when that is empty (Python falsy), fall back to
`f"unnamed_file_{hashlib.md5(url.encode()).hexdigest()[:8]}"`. -/
def get_filename_from_url (url : String) : String :=
  let filename := basename (urlPath url)
  if filename ≠ "" then filename
  else "unnamed_file_" ++ ⟨(md5hex url).data.take 8⟩

/-! ### Resume setup (lines 51-58)

Lines 51-53 initialise `headers = {}` (no `Range` key), `mode = 'wb'`,
`initial_pos = 0`. Line 55 tests
`url in progress and progress[url] != 'failed' and os.path.exists(filepath)`
and on success sets `initial_pos = os.path.getsize(filepath)`,
`headers['Range'] = f'bytes={initial_pos}-'`, `mode = 'ab'`.
The target file is `Option Nat`: its size if it exists. -/

/-- File open mode used at line 66: `'wb'` (truncate) or `'ab'` (append). -/
inductive Mode where
  | wb
  | ab
deriving DecidableEq

/-- The pre-loop request configuration: resume offset, optional `Range`
header value, and open mode. -/
structure TransferSetup where
  initial_pos : Nat
  rangeHeader : Option String
  mode : Mode
deriving DecidableEq

/-- Lines 51-58 of `download_file`. -/
def resumeSetup (url : String) (progress : Ledger) (file : Option Nat) :
    TransferSetup :=
  match progress url with
  | some st =>
    if st ≠ "failed" then
      match file with
      | some sz => ⟨sz, some ("bytes=" ++ toString sz ++ "-"), Mode.ab⟩
      | none => ⟨0, none, Mode.wb⟩
    else ⟨0, none, Mode.wb⟩
  | none => ⟨0, none, Mode.wb⟩

/-- The non-resume configuration of lines 51-53: offset 0, no header,
truncating write mode. -/
def freshSetup : TransferSetup := ⟨0, none, Mode.wb⟩

/-! ### The retry loop and `download_file` (lines 46-96)

One call is driven by an oracle `Nat → AttemptResult`: the outcome the
network produces for each 0-based attempt index. -/

/-- Outcome of one `requests.get` attempt (lines 62-77). -/
inductive AttemptResult where
  | ok (bytes : Nat)
  | reqFailEarly (msg : String)
  | reqFailMid (msg : String) (written : Nat)
  | localError (msg : String)

/-- Observable shared-state and scheduling events of one call, in order.
`attemptStart i range disk` records the `Range` header sent by attempt
`i` and the on-disk size of the target file at that moment. -/
inductive Event where
  | memRead (url : String)
  | attemptStart (i : Nat) (range : Option String) (disk : Nat)
  | sleepFor (d : Nat)
  | memWrite (url status : String)
  | lockAcquire
  | filePersist
  | lockRelease
deriving DecidableEq

/-- State threaded through one call: the shared in-memory dict, the
persisted copy of it, and the target file (size, or `none` if absent). -/
structure DLState where
  mem : Ledger
  persisted : Ledger
  file : Option Nat

/-- `save_progress` (lines 41-44): under the lock, dump the in-memory
dict over the persisted copy. Only the file write is guarded. -/
def save_progress (s : DLState) : DLState :=
  { s with persisted := s.mem }

/-- Events emitted by one `save_progress` call: the persisted-file write
happens strictly between acquiring and releasing `progress_lock`. -/
def save_progress_events : List Event :=
  [Event.lockAcquire, Event.filePersist, Event.lockRelease]

/-- The size the target file has right after `open(filepath, mode)`:
`'wb'` truncates to 0, `'ab'` keeps the current size (0 if absent). -/
def openSize (m : Mode) (file : Option Nat) : Nat :=
  match m with
  | Mode.wb => 0
  | Mode.ab => file.getD 0

/-- On-disk size at a moment: 0 when the file is absent. -/
def diskSize (file : Option Nat) : Nat := file.getD 0

/-- Result of the retry loop: a normal return (lines 82 or 90), or an
exception escaping the loop to the handler at line 92. -/
inductive LoopOut where
  | done (ret : String × Option String) (s : DLState) (evs : List Event)
  | exn (msg : String) (s : DLState) (evs : List Event)

/-- Prefix events onto a loop result. -/
def LoopOut.prepend (es : List Event) : LoopOut → LoopOut
  | LoopOut.done r s evs => LoopOut.done r s (es ++ evs)
  | LoopOut.exn m s evs => LoopOut.exn m s (es ++ evs)

/-- Lines 60-90: `for attempt in range(RETRY_COUNT)` with the
`requests.RequestException` handler (sleep `2 ** attempt`) and the
post-loop failure recording. `setup` is fixed before the loop and never
recomputed (lines 51-58 are outside the loop). `fuel` counts the
remaining iterations, `i` is the current attempt index. -/
def retryLoop (oracle : Nat → AttemptResult) (url filename : String)
    (setup : TransferSetup) : Nat → Nat → DLState → LoopOut
  | 0, _, s =>
    let s1 : DLState := { s with mem := s.mem.set url "failed" }
    LoopOut.done (filename, some "Download failed after retries")
      (save_progress s1)
      ([Event.memWrite url "failed"] ++ save_progress_events)
  | fuel + 1, i, s =>
    match oracle i with
    | AttemptResult.ok b =>
      let s1 : DLState :=
        { s with file := some (openSize setup.mode s.file + b),
                 mem := s.mem.set url "completed" }
      LoopOut.done (filename, none) (save_progress s1)
        ([Event.attemptStart i setup.rangeHeader (diskSize s.file),
          Event.memWrite url "completed"] ++ save_progress_events)
    | AttemptResult.reqFailEarly _ =>
      LoopOut.prepend
        [Event.attemptStart i setup.rangeHeader (diskSize s.file),
         Event.sleepFor (2 ^ i)]
        (retryLoop oracle url filename setup fuel (i + 1) s)
    | AttemptResult.reqFailMid _ w =>
      let s1 : DLState := { s with file := some (openSize setup.mode s.file + w) }
      LoopOut.prepend
        [Event.attemptStart i setup.rangeHeader (diskSize s.file),
         Event.sleepFor (2 ^ i)]
        (retryLoop oracle url filename setup fuel (i + 1) s1)
    | AttemptResult.localError msg =>
      LoopOut.exn msg s
        [Event.attemptStart i setup.rangeHeader (diskSize s.file)]

/-- Constant `RETRY_COUNT` (line 17). -/
def RETRY_COUNT : Nat := 3

/-- Result of one `download_file` call: the returned pair, the final
state, and the event trace. -/
structure DLResult where
  ret : String × Option String
  final : DLState
  events : List Event

/-- `download_file` (lines 46-96): derive the filename, fix the resume
setup once, run the retry loop, and on an unexpected (non-request)
exception fall to the handler at lines 92-96, which records `failed`,
persists, and returns `(url, str(e))`. Every path returns a pair; no
exception escapes. The `memRead` event is the `progress` lookup of
line 55. -/
def download_file (oracle : Nat → AttemptResult) (url download_dir : String)
    (s : DLState) : DLResult :=
  let filename := get_filename_from_url url
  let _filepath := pathJoin download_dir filename
  let setup := resumeSetup url s.mem s.file
  match retryLoop oracle url filename setup RETRY_COUNT 0 s with
  | LoopOut.done r s' evs => ⟨r, s', Event.memRead url :: evs⟩
  | LoopOut.exn msg s' evs =>
    let s1 : DLState := { s' with mem := s'.mem.set url "failed" }
    ⟨(url, some msg), save_progress s1,
      Event.memRead url :: evs ++ [Event.memWrite url "failed"] ++ save_progress_events⟩

/-! ### Orchestrator filter (line 108) -/

/-- The test of line 108: `url not in progress or progress[url] == 'failed'`. -/
def pending_pred (progress : Ledger) (url : String) : Bool :=
  match progress url with
  | none => true
  | some st => st == "failed"

/-- Line 108: `[url for url in urls if url not in progress or
progress[url] == 'failed']`. -/
def remaining_urls (urls : List String) (progress : Ledger) : List String :=
  urls.filter (fun url => pending_pred progress url)

/-- The path a submitted task writes to: line 49,
`os.path.join(download_dir, get_filename_from_url(url))`. -/
def targetPath (download_dir url : String) : String :=
  pathJoin download_dir (get_filename_from_url url)

/-! ### `load_progress` (lines 35-39)

The persisted store is modeled as the optional content of
`PROGRESS_FILE` (`none` = the file does not exist). `json.load` is
modeled by a parser for the object language that `save_progress`
emits (`json.dump(progress, f, indent=4)` of a string-to-string dict:
whitespace, a braced list of `"key": "value"` members; escape
sequences do not occur in its output and are rejected here). A raised
`json.JSONDecodeError` is an `Except.error`; `load_progress` has no
handler, so the error propagates to the caller. -/

/-- Opening brace character. -/
def lbrace : Char := Char.ofNat 123

/-- Closing brace character. -/
def rbrace : Char := Char.ofNat 125

/-- JSON whitespace. -/
def isWs (c : Char) : Bool := c == ' ' || c == '\n' || c == '\t' || c == '\r'

/-- Skip JSON whitespace. -/
def skipWs (cs : List Char) : List Char := cs.dropWhile isWs

/-- Parse one escape-free JSON string literal; return it and the rest. -/
def parseStr : List Char → Option (String × List Char)
  | '"' :: rest =>
    let body := rest.takeWhile (fun c => c != '"' && c != '\\')
    match rest.drop body.length with
    | '"' :: rest' => some (⟨body⟩, rest')
    | _ => none
  | _ => none

/-- Parse one or more `"key": "value"` members separated by commas,
folding them into the dict; return the dict and the rest (positioned
at the closing brace). -/
def parseMembers : Nat → List Char → Ledger → Option (Ledger × List Char)
  | 0, _, _ => none
  | fuel + 1, cs, acc =>
    match parseStr (skipWs cs) with
    | none => none
    | some (k, cs1) =>
      match skipWs cs1 with
      | ':' :: cs2 =>
        match parseStr (skipWs cs2) with
        | none => none
        | some (v, cs3) =>
          match skipWs cs3 with
          | ',' :: cs4 => parseMembers fuel cs4 (acc.set k v)
          | rest => some (acc.set k v, rest)
      | _ => none

/-- `json.load` on the dialect `save_progress` writes: a JSON object of
string members; `none` models a raised `JSONDecodeError`. -/
def jsonLoadDict (s : String) : Option Ledger :=
  match skipWs s.data with
  | c :: rest =>
    if c = lbrace then
      match skipWs rest with
      | d :: rest1 =>
        if d = rbrace then
          if (skipWs rest1).isEmpty then some Ledger.empty else none
        else
          match parseMembers (s.data.length + 1) (d :: rest1) Ledger.empty with
          | some (m, rest2) =>
            match rest2 with
            | e :: rest3 =>
              if e = rbrace ∧ (skipWs rest3).isEmpty then some m else none
            | [] => none
          | none => none
      | [] => none
    else none
  | [] => none

/-- Lines 35-39: if the progress file exists, parse it (a parse failure
raises and propagates — there is no handler); otherwise return `{}`. -/
def load_progress (progressFile : Option String) : Except String Ledger :=
  match progressFile with
  | none => Except.ok Ledger.empty
  | some content =>
    match jsonLoadDict content with
    | some m => Except.ok m
    | none => Except.error "json.decoder.JSONDecodeError"

/-! ### Lock-depth view of a trace

Pairs every event with the number of locks held at the moment it
happens (the acquire itself is paired with the depth before it takes
the lock; the events it guards sit at depth one more). -/

/-- Annotate each event with the current lock depth. -/
def opsWithDepth : Nat → List Event → List (Event × Nat)
  | _, [] => []
  | d, Event.lockAcquire :: rest =>
    (Event.lockAcquire, d) :: opsWithDepth (d + 1) rest
  | d, Event.lockRelease :: rest =>
    (Event.lockRelease, d - 1) :: opsWithDepth (d - 1) rest
  | d, e :: rest => (e, d) :: opsWithDepth d rest

/-- Is this event a read or mutation of the shared in-memory mapping,
or a write of its persisted copy? -/
def isSharedOp : Event → Bool
  | Event.memRead _ => true
  | Event.memWrite _ _ => true
  | Event.filePersist => true
  | _ => false

/-! ### Interleaved workers over the shared dict (for the ledger-safety
claim): each scheduled operation is one atomic step — a worker storing
its URL's terminal status into the in-memory dict, or a worker
persisting the whole in-memory dict over the on-disk copy. -/

/-- One atomic shared-state operation of some worker. -/
inductive WOp where
  | wr (u s : String)
  | persistOp
deriving DecidableEq

/-- Effect of one operation on (in-memory dict, persisted copy). -/
def wstep : Ledger × Ledger → WOp → Ledger × Ledger
  | (mem, disk), WOp.wr u s => (mem.set u s, disk)
  | (mem, _), WOp.persistOp => (mem, mem)

/-- Run a whole schedule. -/
def wrun (st : Ledger × Ledger) (sched : List WOp) : Ledger × Ledger :=
  sched.foldl wstep st

/-- Does this operation write key `u`? -/
def writesKey (u : String) : WOp → Bool
  | WOp.wr u' _ => u' == u
  | WOp.persistOp => false

/-! ### Derived views and property statements used by the theorems -/

/-- The events produced by a loop result. -/
def LoopOut.events : LoopOut → List Event
  | LoopOut.done _ _ evs => evs
  | LoopOut.exn _ _ evs => evs

/-- The state produced by a loop result. -/
def LoopOut.state : LoopOut → DLState
  | LoopOut.done _ s _ => s
  | LoopOut.exn _ s _ => s

/-- Retry-relevant projection of a trace: attempt starts, backoff
sleeps, and recorded statuses, in order. -/
inductive RetryEv where
  | att (i : Nat)
  | slp (d : Nat)
  | rcd (st : String)
deriving DecidableEq

/-- Project a trace onto its retry-relevant events. -/
def retryView (evs : List Event) : List RetryEv :=
  evs.filterMap (fun e =>
    match e with
    | Event.attemptStart i _ _ => some (RetryEv.att i)
    | Event.sleepFor d => some (RetryEv.slp d)
    | Event.memWrite _ st => some (RetryEv.rcd st)
    | _ => none)

/-- Did the attempt raise a `requests.RequestException` (the retried
class of failures)? -/
def isReqFail : AttemptResult → Bool
  | AttemptResult.reqFailEarly _ => true
  | AttemptResult.reqFailMid _ _ => true
  | _ => false

/-- Events that touch neither the shared mapping nor the lock. -/
def plainEv : Event → Bool
  | Event.attemptStart _ _ _ => true
  | Event.sleepFor _ => true
  | _ => false

/-- Reads/mutations of the shared in-memory mapping. -/
def isMemOp : Event → Bool
  | Event.memRead _ => true
  | Event.memWrite _ _ => true
  | _ => false

/-- Lock depth after executing a list of events from depth `d`. -/
def depthAfter : Nat → List Event → Nat
  | d, [] => d
  | d, Event.lockAcquire :: rest => depthAfter (d + 1) rest
  | d, Event.lockRelease :: rest => depthAfter (d - 1) rest
  | d, _ :: rest => depthAfter d rest

/-- The property claim C2 asserts of one call: every attempt after the
first issues a `Range` request whose offset is the on-disk size probed
at the start of that same attempt. -/
def retriesReprobe (oracle : Nat → AttemptResult) (url dir : String)
    (s : DLState) : Prop :=
  ∀ i range disk,
    Event.attemptStart i range disk ∈ (download_file oracle url dir s).events →
    0 < i → range = some ("bytes=" ++ toString disk ++ "-")

/-- The property claim C8 asserts of a trace: every read or mutation of
the in-memory mapping and every persisted-copy write happens with the
lock held. -/
def allSharedOpsLocked (evs : List Event) : Prop :=
  ∀ e d, (e, d) ∈ opsWithDepth 0 evs → isSharedOp e = true → 0 < d

/-- An oracle whose every attempt fails with a request error before any
byte is written (e.g. a mocked 500). -/
def failOracle : Nat → AttemptResult :=
  fun i => AttemptResult.reqFailEarly ("HTTP 500 on attempt " ++ toString i)

/-- An oracle whose first attempt dies mid-stream after 5 bytes reach
the disk and whose second attempt succeeds with 10 bytes. -/
def midFailOracle : Nat → AttemptResult :=
  fun i =>
    if i = 0 then AttemptResult.reqFailMid "connection reset" 5
    else AttemptResult.ok 10

/-- An oracle whose every attempt succeeds with 10 bytes. -/
def okOracle : Nat → AttemptResult := fun _ => AttemptResult.ok 10

/-- Fresh state: empty ledger, empty persisted copy, no target file. -/
def state0 : DLState := ⟨Ledger.empty, Ledger.empty, none⟩

/-! ## Helper lemmas -/

theorem Ledger.set_same (m : Ledger) (k v : String) : (m.set k v) k = some v := by
  simp [Ledger.set]

theorem Ledger.set_other (m : Ledger) (k v x : String) (h : x ≠ k) :
    (m.set k v) x = m x := by
  simp [Ledger.set, h]

theorem pending_pred_iff (progress : Ledger) (u : String) :
    pending_pred progress u = true ↔
      (progress u = none ∨ progress u = some "failed") := by
  unfold pending_pred
  cases h : progress u with
  | none => simp
  | some st => simp [beq_iff_eq]

/-! ## C5: the orchestrator's pending set -/

/-- C5: the pending list of line 108 is exactly the input URLs whose
ledger entry is absent or `failed`, in input order (a sublist) and with
input multiplicity; `completed` URLs are never in it, `failed` ones
always are. -/
theorem pending_set_exact (urls : List String) (progress : Ledger) :
    List.Sublist (remaining_urls urls progress) urls ∧
    (∀ u, u ∈ remaining_urls urls progress ↔
      u ∈ urls ∧ (progress u = none ∨ progress u = some "failed")) ∧
    (∀ u, progress u = some "completed" →
      u ∉ remaining_urls urls progress) ∧
    (∀ u, (progress u = none ∨ progress u = some "failed") →
      (remaining_urls urls progress).count u = urls.count u) := by
  refine ⟨List.filter_sublist urls, ?_, ?_, ?_⟩
  · intro u
    rw [remaining_urls, List.mem_filter]
    constructor
    · intro ⟨h1, h2⟩
      exact ⟨h1, (pending_pred_iff progress u).mp h2⟩
    · intro ⟨h1, h2⟩
      exact ⟨h1, (pending_pred_iff progress u).mpr h2⟩
  · intro u hc hmem
    have hp : pending_pred progress u = true := (List.mem_filter.mp hmem).2
    rcases (pending_pred_iff progress u).mp hp with h | h <;>
      rw [hc] at h <;> simp at h
  · intro u hp
    exact List.count_filter ((pending_pred_iff progress u).mpr hp)

/-- Witness for C5 at a concrete list and ledger: `b` (recorded
`failed`) is pending, `a` (recorded `completed`) is not. -/
theorem pending_set_exact_witness :
    "b" ∈ remaining_urls ["a", "b"]
        ((Ledger.empty.set "a" "completed").set "b" "failed") ∧
    "a" ∉ remaining_urls ["a", "b"]
        ((Ledger.empty.set "a" "completed").set "b" "failed") :=
  ⟨((pending_set_exact ["a", "b"] _).2.1 "b").mpr
      ⟨by decide, Or.inr (by decide)⟩,
    (pending_set_exact ["a", "b"] _).2.2.1 "a" (by decide)⟩

/-! ## C3: dispatched URLs always take the non-resume path -/

/-- C3: a URL the orchestrator dispatches (line 108 lets through only
absent-or-`failed` entries) always gets the fresh setup of lines 51-53:
offset 0, no `Range` header, truncating mode `'wb'`; and the resume
branch of lines 55-58 fires only when the ledger holds an entry for the
URL whose status is not `failed` and the target file exists. -/
theorem dispatched_urls_fresh_setup (urls : List String) (progress : Ledger)
    (u : String) (file : Option Nat)
    (hu : u ∈ remaining_urls urls progress) :
    resumeSetup u progress file = freshSetup ∧
    (∀ (prog2 : Ledger) (f2 : Option Nat),
      resumeSetup u prog2 f2 ≠ freshSetup →
      ∃ st, prog2 u = some st ∧ st ≠ "failed" ∧ f2.isSome = true) := by
  constructor
  · have hp : pending_pred progress u = true := (List.mem_filter.mp hu).2
    rcases (pending_pred_iff progress u).mp hp with h | h <;>
      simp [resumeSetup, h, freshSetup]
  · intro prog2 f2 hne
    cases h : prog2 u with
    | none => simp [resumeSetup, h, freshSetup] at hne
    | some st =>
      by_cases hst : st = "failed"
      · simp [resumeSetup, h, hst, freshSetup] at hne
      · cases f2 with
        | none => simp [resumeSetup, h, hst, freshSetup] at hne
        | some sz => exact ⟨st, rfl, hst, rfl⟩

/-- Witness for C3: with an empty ledger every URL is dispatched and
gets the fresh setup, even when a partial file of size 5 exists. -/
theorem dispatched_urls_fresh_setup_witness :
    resumeSetup "https://example.com/a.zim" Ledger.empty (some 5) = freshSetup :=
  (dispatched_urls_fresh_setup ["https://example.com/a.zim"] Ledger.empty
    "https://example.com/a.zim" (some 5) (by decide)).1

/-! ## C1: the code does not resume when the ledger has no entry -/

/-- C1 (divergence witness): with no ledger entry for the URL and an
existing 5-byte target file, lines 51-58 keep offset 0, send no `Range`
header and open with truncating `'wb'` — the resume the spec describes
does not happen, because line 55 requires `url in progress`. -/
theorem resume_branch_skipped_without_entry :
    resumeSetup "https://example.com/file.zim" Ledger.empty (some 5) = freshSetup ∧
    freshSetup.initial_pos = 0 ∧
    freshSetup.rangeHeader = none ∧
    freshSetup.mode = Mode.wb :=
  ⟨rfl, rfl, rfl, rfl⟩

/-! ## C6: `load_progress` on a missing versus malformed file -/

/-- C6 (counterexample): a malformed progress file is not treated as
"no prior progress" — `json.load` raises and `load_progress` has no
handler, so the call does not return the empty mapping. -/
theorem load_progress_malformed_not_failsoft :
    load_progress (some "not json") ≠ Except.ok Ledger.empty := by
  intro h
  rw [show load_progress (some "not json")
      = Except.error "json.decoder.JSONDecodeError" from rfl] at h
  exact Except.noConfusion h

/-- C6 (amended): a missing file yields the empty mapping, but any
unparseable content makes `load_progress` propagate the parse error. -/
theorem load_progress_missing_empty_malformed_error :
    load_progress none = Except.ok Ledger.empty ∧
    ∀ content, jsonLoadDict content = none →
      load_progress (some content)
        = Except.error "json.decoder.JSONDecodeError" := by
  refine ⟨rfl, ?_⟩
  intro content h
  simp [load_progress, h]

/-- Witness for the amended C6 at the concrete content `"not json"`. -/
theorem load_progress_missing_empty_malformed_error_witness :
    jsonLoadDict "not json" = none ∧
    load_progress (some "not json")
      = Except.error "json.decoder.JSONDecodeError" :=
  ⟨rfl, load_progress_missing_empty_malformed_error.2 "not json" rfl⟩

/-! ## String helper lemmas for C9 and C10 -/

theorem str_append_left_cancel (a b c : String) (h : a ++ b = a ++ c) :
    b = c := by
  have hd := congrArg String.data h
  rw [String.data_append, String.data_append] at hd
  exact String.ext (List.append_cancel_left hd)

theorem basename_no_slash (p : String) : '/' ∉ (basename p).data := by
  intro h
  simp only [basename, basenameList] at h
  rw [List.mem_reverse] at h
  have := List.mem_takeWhile_imp h
  simp at this

theorem nonempty_no_slash_head (f : String) (h0 : f ≠ "")
    (hs : '/' ∉ f.data) : f.data.headD ' ' ≠ '/' := by
  cases hd : f.data with
  | nil => exact absurd (String.ext hd) h0
  | cons c rest =>
    rw [hd] at hs
    simp only [List.headD_cons]
    intro hc
    exact hs (hc ▸ List.mem_cons_self c rest)

theorem pathJoin_ne (dir f g : String) (hf0 : f ≠ "") (hg0 : g ≠ "")
    (hf : '/' ∉ f.data) (hg : '/' ∉ g.data) (hne : f ≠ g) :
    pathJoin dir f ≠ pathJoin dir g := by
  have hfh := nonempty_no_slash_head f hf0 hf
  have hgh := nonempty_no_slash_head g hg0 hg
  unfold pathJoin
  rw [if_neg hfh, if_neg hgh]
  by_cases hdir : dir = "" ∨ dir.data.getLastD ' ' = '/'
  · rw [if_pos hdir, if_pos hdir]
    intro h
    exact hne (str_append_left_cancel dir f g h)
  · rw [if_neg hdir, if_neg hdir]
    intro h
    exact hne (str_append_left_cancel (dir ++ "/") f g h)

theorem get_filename_eq_basename (url : String)
    (h : basename (urlPath url) ≠ "") :
    get_filename_from_url url = basename (urlPath url) := by
  simp [get_filename_from_url, h]

/-! ## MD5 digest shape lemmas for C10 -/

theorem wordLEBytes_length (w : Nat) : (wordLEBytes w).length = 4 := by
  simp [wordLEBytes]

theorem md5Bytes_length (msg : List Nat) : (md5Bytes msg).length = 16 := by
  unfold md5Bytes
  simp [wordLEBytes_length]

theorem flatten_byteHex_length :
    ∀ l : List Nat, ((l.map byteHex).flatten).length = 2 * l.length
  | [] => rfl
  | b :: rest => by
    simp only [List.map_cons, List.flatten_cons, List.length_append,
      List.length_cons, flatten_byteHex_length rest, byteHex]
    simp only [List.length_cons, List.length_nil]
    omega

theorem md5hex_data (s : String) :
    (md5hex s).data = ((md5Bytes (strBytes s)).map byteHex).flatten := rfl

theorem md5hex_data_length (s : String) : (md5hex s).data.length = 32 := by
  rw [md5hex_data, flatten_byteHex_length, md5Bytes_length]

theorem hexDigit_mem (n : Nat) (h : n < 16) :
    hexDigit n ∈ "0123456789abcdef".data := by
  interval_cases n <;> decide

theorem byteHex_mem_hex (b : Nat) (c : Char) (hc : c ∈ byteHex b) :
    c ∈ "0123456789abcdef".data := by
  simp only [byteHex, List.mem_cons, List.not_mem_nil, or_false] at hc
  rcases hc with rfl | rfl
  · exact hexDigit_mem _ (Nat.mod_lt _ (by norm_num))
  · exact hexDigit_mem _ (Nat.mod_lt _ (by norm_num))

/-! ## C10: filename derivation -/

/-- C10: the derived filename is a pure function of the URL text. When
the path component's basename is nonempty it is returned verbatim;
when it is empty the result is the fixed prefix `unnamed_file_`
followed by the first 8 characters of the MD5 hex digest of the URL —
a nonempty name whose hash part has exactly 8 lowercase-hex
characters. -/
theorem filename_derivation_spec (url : String) :
    (basename (urlPath url) ≠ "" →
      get_filename_from_url url = basename (urlPath url)) ∧
    (basename (urlPath url) = "" →
      get_filename_from_url url
          = "unnamed_file_" ++ ⟨(md5hex url).data.take 8⟩ ∧
        get_filename_from_url url ≠ "" ∧
        ((md5hex url).data.take 8).length = 8 ∧
        ∀ c ∈ (md5hex url).data.take 8, c ∈ "0123456789abcdef".data) := by
  constructor
  · exact get_filename_eq_basename url
  · intro h
    refine ⟨by simp [get_filename_from_url, h], ?_, ?_, ?_⟩
    · intro hcontra
      have hcd := congrArg String.data (by simpa [get_filename_from_url, h] using hcontra)
      rw [String.data_append] at hcd
      exact absurd (List.append_eq_nil.mp hcd).1 (by decide)
    · rw [List.length_take, md5hex_data_length]
      decide
    · intro c hc
      have hc' : c ∈ (md5hex url).data := List.mem_of_mem_take hc
      rw [md5hex_data] at hc'
      rcases List.mem_flatten.mp hc' with ⟨l, hl, hcl⟩
      rcases List.mem_map.mp hl with ⟨b, _, rfl⟩
      exact byteHex_mem_hex b c hcl

/-- Witness for C10: the hash fallback fires on
`https://example.com/` (empty basename), and the plain case on
`https://example.com/path/file.zim`. -/
theorem filename_derivation_spec_witness :
    get_filename_from_url "https://example.com/"
        = "unnamed_file_" ++ ⟨(md5hex "https://example.com/").data.take 8⟩ ∧
    get_filename_from_url "https://example.com/path/file.zim"
        = basename (urlPath "https://example.com/path/file.zim") :=
  ⟨((filename_derivation_spec "https://example.com/").2 (by decide)).1,
    (filename_derivation_spec "https://example.com/path/file.zim").1 (by decide)⟩

/-! ## C9: URL-to-path map on one run's submitted tasks -/

/-- C9 (counterexample): two distinct input URLs sharing a basename are
both dispatched and target the same path, so the URL-to-path map over
one run's submitted task list is not injective. -/
theorem duplicate_target_paths_cex :
    "http://a.com/f.zim" ≠ "http://b.com/f.zim" ∧
    remaining_urls ["http://a.com/f.zim", "http://b.com/f.zim"] Ledger.empty
      = ["http://a.com/f.zim", "http://b.com/f.zim"] ∧
    targetPath "/mnt/e/kiwix/archives" "http://a.com/f.zim"
      = targetPath "/mnt/e/kiwix/archives" "http://b.com/f.zim" ∧
    ¬ ((remaining_urls ["http://a.com/f.zim", "http://b.com/f.zim"]
          Ledger.empty).map (targetPath "/mnt/e/kiwix/archives")).Nodup := by
  refine ⟨by decide, by decide, by decide, ?_⟩
  intro h
  rw [show (remaining_urls ["http://a.com/f.zim", "http://b.com/f.zim"]
      Ledger.empty).map (targetPath "/mnt/e/kiwix/archives")
      = ["/mnt/e/kiwix/archives/f.zim", "/mnt/e/kiwix/archives/f.zim"]
    from by decide] at h
  simp at h

/-- C9 (amended): the URL-to-path map is deterministic but not
injective; what does hold is that two URLs whose path basenames are
nonempty and different always target different paths. -/
theorem distinct_basenames_distinct_targets (dir u v : String)
    (hne : basename (urlPath u) ≠ basename (urlPath v))
    (hu : basename (urlPath u) ≠ "") (hv : basename (urlPath v) ≠ "") :
    targetPath dir u ≠ targetPath dir v := by
  unfold targetPath
  rw [get_filename_eq_basename u hu, get_filename_eq_basename v hv]
  exact pathJoin_ne dir _ _ hu hv (basename_no_slash _) (basename_no_slash _) hne

/-- Witness for the amended C9 at two URLs with different basenames. -/
theorem distinct_basenames_distinct_targets_witness :
    targetPath "/mnt/e/kiwix/archives" "http://a.com/f.zim"
      ≠ targetPath "/mnt/e/kiwix/archives" "http://a.com/g.zim" :=
  distinct_basenames_distinct_targets "/mnt/e/kiwix/archives"
    "http://a.com/f.zim" "http://a.com/g.zim" (by decide) (by decide) (by decide)

/-! ## C2: retries reuse the setup computed before the loop -/

theorem retryLoop_attempt_range (oracle : Nat → AttemptResult)
    (url filename : String) (setup : TransferSetup) :
    ∀ (fuel i0 : Nat) (s : DLState) (j : Nat) (r : Option String) (d : Nat),
      Event.attemptStart j r d ∈
        (retryLoop oracle url filename setup fuel i0 s).events →
      r = setup.rangeHeader := by
  intro fuel
  induction fuel with
  | zero =>
    intro i0 s j r d h
    simp [retryLoop, LoopOut.events, save_progress_events] at h
  | succ n ih =>
    intro i0 s j r d h
    cases ho : oracle i0 with
    | ok b =>
      simp [retryLoop, ho, LoopOut.events, save_progress_events] at h
      obtain ⟨-, hr, -⟩ := h
      exact hr
    | reqFailEarly msg =>
      cases hrec : retryLoop oracle url filename setup n (i0 + 1) s with
      | done rr ss evs =>
        simp [retryLoop, ho, hrec, LoopOut.prepend, LoopOut.events] at h
        rcases h with ⟨-, hr, -⟩ | h2
        · exact hr
        · exact ih (i0 + 1) s j r d (by rw [hrec]; exact h2)
      | exn m ss evs =>
        simp [retryLoop, ho, hrec, LoopOut.prepend, LoopOut.events] at h
        rcases h with ⟨-, hr, -⟩ | h2
        · exact hr
        · exact ih (i0 + 1) s j r d (by rw [hrec]; exact h2)
    | reqFailMid msg w =>
      cases hrec : retryLoop oracle url filename setup n (i0 + 1)
          { s with file := some (openSize setup.mode s.file + w) } with
      | done rr ss evs =>
        simp [retryLoop, ho, hrec, LoopOut.prepend, LoopOut.events] at h
        rcases h with ⟨-, hr, -⟩ | h2
        · exact hr
        · exact ih (i0 + 1) _ j r d (by rw [hrec]; exact h2)
      | exn m ss evs =>
        simp [retryLoop, ho, hrec, LoopOut.prepend, LoopOut.events] at h
        rcases h with ⟨-, hr, -⟩ | h2
        · exact hr
        · exact ih (i0 + 1) _ j r d (by rw [hrec]; exact h2)
    | localError msg =>
      simp [retryLoop, ho, LoopOut.events] at h
      obtain ⟨-, hr, -⟩ := h
      exact hr

/-- C2 (counterexample): with an empty ledger and no file, attempt 0
dies mid-stream after 5 bytes reach the disk; the retry (attempt 1)
then sends no `Range` header at all — it does not re-probe the 5-byte
on-disk file — and, the mode being `'wb'`, the retry truncates, so the
final file holds only the retry's own 10 bytes. -/
theorem retries_reuse_initial_offset_cex :
    ¬ retriesReprobe midFailOracle "https://example.com/f.zim" "/d" state0 ∧
    (download_file midFailOracle "https://example.com/f.zim" "/d"
        state0).final.file = some 10 := by
  constructor
  · intro h
    have h5 := h 1 none 5 (by decide) (by decide)
    exact Option.noConfusion h5
  · decide

/-- C2 (amended): the resume offset, `Range` header and open mode are
computed once, before the loop (lines 51-58); every attempt of the same
call, retries included, sends exactly that header — the current on-disk
size is never re-probed between attempts. -/
theorem retry_attempts_fixed_header (oracle : Nat → AttemptResult)
    (url dir : String) (s : DLState) (i : Nat) (range : Option String)
    (disk : Nat)
    (h : Event.attemptStart i range disk
      ∈ (download_file oracle url dir s).events) :
    range = (resumeSetup url s.mem s.file).rangeHeader := by
  cases hloop : retryLoop oracle url (get_filename_from_url url)
      (resumeSetup url s.mem s.file) RETRY_COUNT 0 s with
  | done r s' evs =>
    have hev : (download_file oracle url dir s).events
        = Event.memRead url :: evs := by
      simp only [download_file, hloop]
    rw [hev] at h
    rcases List.mem_cons.mp h with h1 | h2
    · exact absurd h1 (by simp)
    · exact retryLoop_attempt_range oracle url (get_filename_from_url url)
        (resumeSetup url s.mem s.file) RETRY_COUNT 0 s i range disk
        (by rw [hloop]; exact h2)
  | exn m s' evs =>
    have hev : (download_file oracle url dir s).events
        = Event.memRead url :: evs ++ [Event.memWrite url "failed"]
          ++ save_progress_events := by
      simp only [download_file, hloop]
    rw [hev] at h
    have h' : Event.attemptStart i range disk ∈ evs := by
      simp [save_progress_events] at h
      exact h
    exact retryLoop_attempt_range oracle url (get_filename_from_url url)
      (resumeSetup url s.mem s.file) RETRY_COUNT 0 s i range disk
      (by rw [hloop]; exact h')

/-- Witness for the amended C2: the one successful attempt of a fresh
call sends no `Range` header, the header fixed before the loop. -/
theorem retry_attempts_fixed_header_witness :
    (none : Option String)
      = (resumeSetup "https://example.com/f.zim" state0.mem
          state0.file).rangeHeader :=
  retry_attempts_fixed_header okOracle "https://example.com/f.zim" "/d"
    state0 0 none 0 (by decide)

/-! ## C4: retry budget, backoff schedule, early exit on success -/

/-- C4: when every attempt raises a request error, one call makes
exactly `RETRY_COUNT` = 3 attempts, sleeping `2 ^ i` after failed
attempt `i` (so 1 and 2 time units precede attempts 1 and 2; a final
sleep of 4 follows the last attempt, as the code sleeps after every
failure), and ends by recording `failed`; when attempt `k` succeeds
after `k` failures, the call stops at attempt `k` with no further
attempts or sleeps and records `completed`. -/
theorem retry_policy (oracle : Nat → AttemptResult) (url dir : String)
    (s : DLState) :
    ((∀ i, i < RETRY_COUNT → isReqFail (oracle i) = true) →
      retryView (download_file oracle url dir s).events =
        [RetryEv.att 0, RetryEv.slp 1, RetryEv.att 1, RetryEv.slp 2,
         RetryEv.att 2, RetryEv.slp 4, RetryEv.rcd "failed"] ∧
      (download_file oracle url dir s).final.mem url = some "failed") ∧
    (∀ k b, k < RETRY_COUNT → oracle k = AttemptResult.ok b →
      (∀ i, i < k → isReqFail (oracle i) = true) →
      retryView (download_file oracle url dir s).events =
        ((List.range k).map
            (fun i => [RetryEv.att i, RetryEv.slp (2 ^ i)])).flatten
          ++ [RetryEv.att k, RetryEv.rcd "completed"] ∧
      (download_file oracle url dir s).final.mem url = some "completed") := by
  constructor
  · intro hf
    have h0 := hf 0 (by decide)
    have h1 := hf 1 (by decide)
    have h2 := hf 2 (by decide)
    cases ho0 : oracle 0 <;> rw [ho0] at h0 <;> try simp [isReqFail] at h0
    all_goals cases ho1 : oracle 1 <;> rw [ho1] at h1 <;>
      try simp [isReqFail] at h1
    all_goals cases ho2 : oracle 2 <;> rw [ho2] at h2 <;>
      try simp [isReqFail] at h2
    all_goals simp [download_file, RETRY_COUNT, retryLoop, ho0, ho1, ho2,
      retryView, LoopOut.prepend, LoopOut.events, save_progress_events,
      save_progress, Ledger.set]
  · intro k b hk hok hf
    have hk3 : k < 3 := hk
    interval_cases k
    · simp [download_file, RETRY_COUNT, retryLoop, hok, retryView,
        LoopOut.prepend, LoopOut.events, save_progress_events,
        save_progress, Ledger.set]
    · have h0 := hf 0 (by decide)
      cases ho0 : oracle 0 <;> rw [ho0] at h0 <;> try simp [isReqFail] at h0
      all_goals simp [download_file, RETRY_COUNT, retryLoop, ho0, hok,
        retryView, LoopOut.prepend, LoopOut.events, save_progress_events,
        save_progress, Ledger.set, List.range_succ]
    · have h0 := hf 0 (by decide)
      have h1 := hf 1 (by decide)
      cases ho0 : oracle 0 <;> rw [ho0] at h0 <;> try simp [isReqFail] at h0
      all_goals cases ho1 : oracle 1 <;> rw [ho1] at h1 <;>
        try simp [isReqFail] at h1
      all_goals simp [download_file, RETRY_COUNT, retryLoop, ho0, ho1, hok,
        retryView, LoopOut.prepend, LoopOut.events, save_progress_events,
        save_progress, Ledger.set, List.range_succ]

/-- Witness for C4: an oracle that always returns a mocked 500 yields
exactly three attempts with sleeps 1, 2, 4 and a `failed` record. -/
theorem retry_policy_witness :
    retryView (download_file failOracle "https://example.com/f.zim" "/d"
        state0).events =
      [RetryEv.att 0, RetryEv.slp 1, RetryEv.att 1, RetryEv.slp 2,
       RetryEv.att 2, RetryEv.slp 4, RetryEv.rcd "failed"] ∧
    (download_file failOracle "https://example.com/f.zim" "/d"
        state0).final.mem "https://example.com/f.zim" = some "failed" :=
  (retry_policy failOracle "https://example.com/f.zim" "/d" state0).1
    (by decide)

/-! ## C7: every call returns a pair, records a terminal status and
persists it before returning -/

theorem retryLoop_done_spec (oracle : Nat → AttemptResult)
    (url filename : String) (setup : TransferSetup) :
    ∀ (fuel i0 : Nat) (s : DLState) (r : String × Option String)
      (s' : DLState) (evs : List Event),
      retryLoop oracle url filename setup fuel i0 s = LoopOut.done r s' evs →
      s'.persisted = s'.mem ∧
      List.IsSuffix save_progress_events evs ∧
      ((r = (filename, none) ∧ s'.mem url = some "completed") ∨
       (r = (filename, some "Download failed after retries") ∧
         s'.mem url = some "failed")) := by
  intro fuel
  induction fuel with
  | zero =>
    intro i0 s r s' evs h
    simp only [retryLoop] at h
    injection h with h1 h2 h3
    subst h1
    subst h2
    subst h3
    exact ⟨rfl, List.suffix_append _ _,
      Or.inr ⟨rfl, Ledger.set_same s.mem url "failed"⟩⟩
  | succ n ih =>
    intro i0 s r s' evs h
    cases ho : oracle i0 with
    | ok b =>
      simp only [retryLoop, ho] at h
      injection h with h1 h2 h3
      subst h1
      subst h2
      subst h3
      exact ⟨rfl, List.suffix_append _ _,
        Or.inl ⟨rfl, Ledger.set_same s.mem url "completed"⟩⟩
    | reqFailEarly msg =>
      simp only [retryLoop, ho] at h
      cases hrec : retryLoop oracle url filename setup n (i0 + 1) s with
      | done rr ss evs2 =>
        rw [hrec] at h
        simp only [LoopOut.prepend] at h
        injection h with h1 h2 h3
        subst h1
        subst h2
        subst h3
        obtain ⟨hps, hsuf, hout⟩ := ih (i0 + 1) s rr ss evs2 hrec
        exact ⟨hps, hsuf.trans (List.suffix_append _ _), hout⟩
      | exn m ss evs2 =>
        rw [hrec] at h
        simp only [LoopOut.prepend] at h
        exact LoopOut.noConfusion h
    | reqFailMid msg w =>
      simp only [retryLoop, ho] at h
      cases hrec : retryLoop oracle url filename setup n (i0 + 1)
          { s with file := some (openSize setup.mode s.file + w) } with
      | done rr ss evs2 =>
        rw [hrec] at h
        simp only [LoopOut.prepend] at h
        injection h with h1 h2 h3
        subst h1
        subst h2
        subst h3
        obtain ⟨hps, hsuf, hout⟩ := ih (i0 + 1) _ rr ss evs2 hrec
        exact ⟨hps, hsuf.trans (List.suffix_append _ _), hout⟩
      | exn m ss evs2 =>
        rw [hrec] at h
        simp only [LoopOut.prepend] at h
        exact LoopOut.noConfusion h
    | localError msg =>
      simp only [retryLoop, ho] at h
      exact LoopOut.noConfusion h

/-- C7: `download_file` always returns a `(name, outcome)` pair (the
embedding is total — the handler at line 92 turns any non-request
exception into a return value); in every terminal case the call stores
`completed` or `failed` in the in-memory ledger and synchronously
persists it before returning (the final persisted copy equals the final
in-memory mapping, and the trace ends inside a `save_progress` call);
the pair is `(filename, None)` on success,
`(filename, "Download failed after retries")` on retry exhaustion, and
`(url, str(e))` on an unexpected local error — the latter two both
non-`None`, hence identical for the caller at line 115. -/
theorem download_file_total_outcomes (oracle : Nat → AttemptResult)
    (url dir : String) (s : DLState) :
    (download_file oracle url dir s).final.persisted
        = (download_file oracle url dir s).final.mem ∧
    List.IsSuffix save_progress_events (download_file oracle url dir s).events ∧
    (((download_file oracle url dir s).ret
          = (get_filename_from_url url, none) ∧
        (download_file oracle url dir s).final.mem url = some "completed") ∨
     ((download_file oracle url dir s).ret
          = (get_filename_from_url url, some "Download failed after retries") ∧
        (download_file oracle url dir s).final.mem url = some "failed") ∨
     (∃ msg, (download_file oracle url dir s).ret = (url, some msg) ∧
        (download_file oracle url dir s).final.mem url = some "failed")) := by
  cases hloop : retryLoop oracle url (get_filename_from_url url)
      (resumeSetup url s.mem s.file) RETRY_COUNT 0 s with
  | done r s' evs =>
    have hd : download_file oracle url dir s
        = ⟨r, s', Event.memRead url :: evs⟩ := by
      simp only [download_file, hloop]
    obtain ⟨hps, hsuf, hout⟩ :=
      retryLoop_done_spec oracle url (get_filename_from_url url)
        (resumeSetup url s.mem s.file) RETRY_COUNT 0 s r s' evs hloop
    rw [hd]
    refine ⟨hps, hsuf.trans ⟨[Event.memRead url], rfl⟩, ?_⟩
    rcases hout with ⟨h1, h2⟩ | ⟨h1, h2⟩
    · exact Or.inl ⟨h1, h2⟩
    · exact Or.inr (Or.inl ⟨h1, h2⟩)
  | exn m s' evs =>
    have hd : download_file oracle url dir s
        = ⟨(url, some m), save_progress { s' with mem := s'.mem.set url "failed" },
            Event.memRead url :: evs ++ [Event.memWrite url "failed"]
              ++ save_progress_events⟩ := by
      simp only [download_file, hloop]
    rw [hd]
    refine ⟨rfl, ?_, Or.inr (Or.inr ⟨m, rfl,
      Ledger.set_same s'.mem url "failed"⟩)⟩
    exact ⟨Event.memRead url :: (evs ++ [Event.memWrite url "failed"]), by simp⟩

/-! ## C8: what the lock does and does not guard -/

theorem opsWithDepth_append (xs : List Event) :
    ∀ (d : Nat) (ys : List Event),
      opsWithDepth d (xs ++ ys)
        = opsWithDepth d xs ++ opsWithDepth (depthAfter d xs) ys := by
  induction xs with
  | nil => intro d ys; simp [opsWithDepth, depthAfter]
  | cons e rest ih =>
    intro d ys
    cases e <;> simp [opsWithDepth, depthAfter, ih]

theorem opsWithDepth_plain (pre : List Event)
    (h : ∀ e ∈ pre, plainEv e = true) :
    ∀ d, opsWithDepth d pre = pre.map (fun e => (e, d)) ∧
      depthAfter d pre = d := by
  induction pre with
  | nil => intro d; simp [opsWithDepth, depthAfter]
  | cons e rest ih =>
    intro d
    have he := h e (List.mem_cons_self e rest)
    have hrest : ∀ x ∈ rest, plainEv x = true :=
      fun x hx => h x (List.mem_cons_of_mem e hx)
    cases e with
    | attemptStart i r dd =>
      simp [opsWithDepth, depthAfter, (ih hrest d).1, (ih hrest d).2]
    | sleepFor t =>
      simp [opsWithDepth, depthAfter, (ih hrest d).1, (ih hrest d).2]
    | memRead u => simp [plainEv] at he
    | memWrite u st => simp [plainEv] at he
    | lockAcquire => simp [plainEv] at he
    | filePersist => simp [plainEv] at he
    | lockRelease => simp [plainEv] at he

theorem retryLoop_done_shape (oracle : Nat → AttemptResult)
    (url filename : String) (setup : TransferSetup) :
    ∀ (fuel i0 : Nat) (s : DLState) (r : String × Option String)
      (s' : DLState) (evs : List Event),
      retryLoop oracle url filename setup fuel i0 s = LoopOut.done r s' evs →
      ∃ pre st, (∀ e ∈ pre, plainEv e = true) ∧
        evs = pre ++ [Event.memWrite url st] ++ save_progress_events := by
  intro fuel
  induction fuel with
  | zero =>
    intro i0 s r s' evs h
    simp only [retryLoop] at h
    injection h with h1 h2 h3
    exact ⟨[], "failed", by simp, by rw [← h3]; simp⟩
  | succ n ih =>
    intro i0 s r s' evs h
    cases ho : oracle i0 with
    | ok b =>
      simp only [retryLoop, ho] at h
      injection h with h1 h2 h3
      refine ⟨[Event.attemptStart i0 setup.rangeHeader (diskSize s.file)],
        "completed", by simp [plainEv], ?_⟩
      rw [← h3]
      simp
    | reqFailEarly msg =>
      simp only [retryLoop, ho] at h
      cases hrec : retryLoop oracle url filename setup n (i0 + 1) s with
      | done rr ss evs2 =>
        rw [hrec] at h
        simp only [LoopOut.prepend] at h
        injection h with h1 h2 h3
        obtain ⟨pre, st, hp, heq⟩ := ih (i0 + 1) s rr ss evs2 hrec
        refine ⟨[Event.attemptStart i0 setup.rangeHeader (diskSize s.file),
          Event.sleepFor (2 ^ i0)] ++ pre, st, ?_, ?_⟩
        · intro e hmem
          rcases List.mem_append.mp hmem with hx | hx
          · simp only [List.mem_cons, List.not_mem_nil, or_false] at hx
            rcases hx with hx | hx <;> subst hx <;> rfl
          · exact hp e hx
        · rw [← h3, heq]
          simp
      | exn m ss evs2 =>
        rw [hrec] at h
        simp only [LoopOut.prepend] at h
        exact LoopOut.noConfusion h
    | reqFailMid msg w =>
      simp only [retryLoop, ho] at h
      cases hrec : retryLoop oracle url filename setup n (i0 + 1)
          { s with file := some (openSize setup.mode s.file + w) } with
      | done rr ss evs2 =>
        rw [hrec] at h
        simp only [LoopOut.prepend] at h
        injection h with h1 h2 h3
        obtain ⟨pre, st, hp, heq⟩ := ih (i0 + 1) _ rr ss evs2 hrec
        refine ⟨[Event.attemptStart i0 setup.rangeHeader (diskSize s.file),
          Event.sleepFor (2 ^ i0)] ++ pre, st, ?_, ?_⟩
        · intro e hmem
          rcases List.mem_append.mp hmem with hx | hx
          · simp only [List.mem_cons, List.not_mem_nil, or_false] at hx
            rcases hx with hx | hx <;> subst hx <;> rfl
          · exact hp e hx
        · rw [← h3, heq]
          simp
      | exn m ss evs2 =>
        rw [hrec] at h
        simp only [LoopOut.prepend] at h
        exact LoopOut.noConfusion h
    | localError msg =>
      simp only [retryLoop, ho] at h
      exact LoopOut.noConfusion h

theorem retryLoop_exn_shape (oracle : Nat → AttemptResult)
    (url filename : String) (setup : TransferSetup) :
    ∀ (fuel i0 : Nat) (s : DLState) (m : String) (s' : DLState)
      (evs : List Event),
      retryLoop oracle url filename setup fuel i0 s = LoopOut.exn m s' evs →
      ∀ e ∈ evs, plainEv e = true := by
  intro fuel
  induction fuel with
  | zero =>
    intro i0 s m s' evs h
    simp only [retryLoop] at h
    exact LoopOut.noConfusion h
  | succ n ih =>
    intro i0 s m s' evs h
    cases ho : oracle i0 with
    | ok b =>
      simp only [retryLoop, ho] at h
      exact LoopOut.noConfusion h
    | reqFailEarly msg =>
      simp only [retryLoop, ho] at h
      cases hrec : retryLoop oracle url filename setup n (i0 + 1) s with
      | done rr ss evs2 =>
        rw [hrec] at h
        simp only [LoopOut.prepend] at h
        exact LoopOut.noConfusion h
      | exn m2 ss evs2 =>
        rw [hrec] at h
        simp only [LoopOut.prepend] at h
        injection h with h1 h2 h3
        intro e hmem
        rw [← h3] at hmem
        rcases List.mem_append.mp hmem with hx | hx
        · simp only [List.mem_cons, List.not_mem_nil, or_false] at hx
          rcases hx with hx | hx <;> subst hx <;> rfl
        · exact ih (i0 + 1) s m2 ss evs2 hrec e hx
    | reqFailMid msg w =>
      simp only [retryLoop, ho] at h
      cases hrec : retryLoop oracle url filename setup n (i0 + 1)
          { s with file := some (openSize setup.mode s.file + w) } with
      | done rr ss evs2 =>
        rw [hrec] at h
        simp only [LoopOut.prepend] at h
        exact LoopOut.noConfusion h
      | exn m2 ss evs2 =>
        rw [hrec] at h
        simp only [LoopOut.prepend] at h
        injection h with h1 h2 h3
        intro e hmem
        rw [← h3] at hmem
        rcases List.mem_append.mp hmem with hx | hx
        · simp only [List.mem_cons, List.not_mem_nil, or_false] at hx
          rcases hx with hx | hx <;> subst hx <;> rfl
        · exact ih (i0 + 1) _ m2 ss evs2 hrec e hx
    | localError msg =>
      simp only [retryLoop, ho] at h
      injection h with h1 h2 h3
      intro e hmem
      rw [← h3] at hmem
      simp only [List.mem_cons, List.not_mem_nil, or_false] at hmem
      subst hmem
      rfl

theorem opsWithDepth_standard_trace (url st : String) (pre : List Event)
    (hp : ∀ e ∈ pre, plainEv e = true) (e : Event) (d : Nat)
    (h : (e, d) ∈ opsWithDepth 0
      (Event.memRead url :: pre ++ [Event.memWrite url st]
        ++ save_progress_events)) :
    (e = Event.filePersist → d = 1) ∧ (isMemOp e = true → d = 0) := by
  have hops := opsWithDepth_plain pre hp 0
  have hexp : opsWithDepth 0
      (Event.memRead url :: pre ++ [Event.memWrite url st]
        ++ save_progress_events)
      = (Event.memRead url, 0) :: (pre.map (fun x => (x, 0)) ++
          [(Event.memWrite url st, 0), (Event.lockAcquire, 0),
           (Event.filePersist, 1), (Event.lockRelease, 0)]) := by
    have hassoc : Event.memRead url :: pre ++ [Event.memWrite url st]
        ++ save_progress_events
        = Event.memRead url :: (pre ++ ([Event.memWrite url st]
          ++ save_progress_events)) := by simp
    rw [hassoc]
    show (Event.memRead url, 0) :: opsWithDepth 0
      (pre ++ ([Event.memWrite url st] ++ save_progress_events)) = _
    rw [opsWithDepth_append, hops.1, hops.2]
    rfl
  rw [hexp] at h
  simp only [List.mem_cons, List.mem_append, List.mem_map,
    Prod.mk.injEq, List.not_mem_nil, or_false] at h
  constructor
  · intro he
    subst he
    rcases h with ⟨h1, h2⟩ | ⟨x, hx, hx1, hx2⟩ | ⟨h1, h2⟩ | ⟨h1, h2⟩
      | ⟨h1, h2⟩ | ⟨h1, h2⟩
    · exact absurd h1 (by simp)
    · rw [hx1] at hx
      have := hp _ hx
      simp [plainEv] at this
    · exact absurd h1 (by simp)
    · exact absurd h1 (by simp)
    · omega
    · exact absurd h1 (by simp)
  · intro hm
    rcases h with ⟨h1, h2⟩ | ⟨x, hx, hx1, hx2⟩ | ⟨h1, h2⟩ | ⟨h1, h2⟩
      | ⟨h1, h2⟩ | ⟨h1, h2⟩
    · omega
    · omega
    · omega
    · rw [h1] at hm
      simp [isMemOp] at hm
    · rw [h1] at hm
      simp [isMemOp] at hm
    · rw [h1] at hm
      simp [isMemOp] at hm

theorem wrun_mem_eq (u : String) :
    ∀ (l : List WOp) (mem disk : Ledger),
      (∀ op ∈ l, writesKey u op = false) →
      (wrun (mem, disk) l).1 u = mem u := by
  intro l
  induction l with
  | nil => intro mem disk _; rfl
  | cons op rest ih =>
    intro mem disk h
    have hop := h op (List.mem_cons_self op rest)
    have hrest : ∀ x ∈ rest, writesKey u x = false :=
      fun x hx => h x (List.mem_cons_of_mem op hx)
    cases op with
    | wr u' sv =>
      have hne : u ≠ u' := by
        intro hh
        rw [hh] at hop
        simp [writesKey] at hop
      show (wrun (mem.set u' sv, disk) rest).1 u = mem u
      rw [ih _ _ hrest]
      exact Ledger.set_other mem u' sv u hne
    | persistOp =>
      show (wrun (mem, mem) rest).1 u = mem u
      exact ih _ _ hrest

theorem wrun_disk_stable (u st : String) :
    ∀ (l : List WOp) (mem disk : Ledger),
      (∀ op ∈ l, writesKey u op = false) →
      mem u = some st → disk u = some st →
      (wrun (mem, disk) l).2 u = some st := by
  intro l
  induction l with
  | nil => intro mem disk _ _ hdisk; exact hdisk
  | cons op rest ih =>
    intro mem disk h hmem hdisk
    have hop := h op (List.mem_cons_self op rest)
    have hrest : ∀ x ∈ rest, writesKey u x = false :=
      fun x hx => h x (List.mem_cons_of_mem op hx)
    cases op with
    | wr u' sv =>
      have hne : u ≠ u' := by
        intro hh
        rw [hh] at hop
        simp [writesKey] at hop
      show (wrun (mem.set u' sv, disk) rest).2 u = some st
      exact ih _ _ hrest (by rw [Ledger.set_other mem u' sv u hne]; exact hmem)
        hdisk
    | persistOp =>
      show (wrun (mem, mem) rest).2 u = some st
      exact ih _ _ hrest hmem hmem

/-- C8 (counterexample): on a successful fresh download, the in-memory
ledger write `progress[url] = 'completed'` (line 79) happens at lock
depth 0 — outside the mutual-exclusion lock, which `save_progress`
acquires only around the file dump. The claim that every read/mutation
of the shared mapping is serialized by the lock is false. -/
theorem shared_ops_not_all_locked_cex :
    ¬ allSharedOpsLocked
      (download_file okOracle "https://example.com/f.zim" "/d" state0).events := by
  intro h
  have h0 := h (Event.memWrite "https://example.com/f.zim" "completed") 0
    (by decide) (by decide)
  exact Nat.lt_irrefl 0 h0

/-- C8 (amended): the lock guards exactly the persisted-copy write:
in every `download_file` trace the `filePersist` event sits at lock
depth 1 while every read or mutation of the shared in-memory mapping
sits at depth 0, unguarded. Nevertheless, in the atomic-step
interleaving model of concurrent workers, any schedule in which a
worker stores its own URL's status (a key no other scheduled operation
writes) and some persist happens afterwards ends with that entry in
the persisted mapping — N workers recording distinct URLs lose no
updates. -/
theorem persist_locked_mem_unlocked_no_lost_updates :
    (∀ (oracle : Nat → AttemptResult) (url dir : String) (s : DLState)
      (e : Event) (d : Nat),
      (e, d) ∈ opsWithDepth 0 (download_file oracle url dir s).events →
      (e = Event.filePersist → d = 1) ∧ (isMemOp e = true → d = 0)) ∧
    (∀ (m0 d0 : Ledger) (l1 a b : List WOp) (u st : String),
      (∀ op ∈ a, writesKey u op = false) →
      (∀ op ∈ b, writesKey u op = false) →
      (wrun (m0, d0)
        (l1 ++ WOp.wr u st :: (a ++ WOp.persistOp :: b))).2 u = some st) := by
  constructor
  · intro oracle url dir s e d h
    cases hloop : retryLoop oracle url (get_filename_from_url url)
        (resumeSetup url s.mem s.file) RETRY_COUNT 0 s with
    | done r s' evs =>
      have hd : (download_file oracle url dir s).events
          = Event.memRead url :: evs := by
        simp only [download_file, hloop]
      obtain ⟨pre, st, hp, heq⟩ :=
        retryLoop_done_shape oracle url (get_filename_from_url url)
          (resumeSetup url s.mem s.file) RETRY_COUNT 0 s r s' evs hloop
      rw [hd, heq] at h
      exact opsWithDepth_standard_trace url st pre hp e d h
    | exn m s' evs =>
      have hd : (download_file oracle url dir s).events
          = Event.memRead url :: evs ++ [Event.memWrite url "failed"]
            ++ save_progress_events := by
        simp only [download_file, hloop]
      have hp := retryLoop_exn_shape oracle url (get_filename_from_url url)
        (resumeSetup url s.mem s.file) RETRY_COUNT 0 s m s' evs hloop
      rw [hd] at h
      exact opsWithDepth_standard_trace url "failed" evs hp e d h
  · intro m0 d0 l1 a b u st ha hb
    have hsplit : wrun (m0, d0)
        (l1 ++ WOp.wr u st :: (a ++ WOp.persistOp :: b))
        = wrun (wstep (wrun (m0, d0) l1) (WOp.wr u st))
            (a ++ WOp.persistOp :: b) := by
      simp [wrun, List.foldl_append, List.foldl_cons]
    rw [hsplit]
    rcases hw1 : wrun (m0, d0) l1 with ⟨m1, d1⟩
    have hstep : wstep (m1, d1) (WOp.wr u st) = (m1.set u st, d1) := rfl
    rw [hstep]
    have hsplit2 : wrun (m1.set u st, d1) (a ++ WOp.persistOp :: b)
        = wrun (wrun (m1.set u st, d1) a) (WOp.persistOp :: b) := by
      simp [wrun, List.foldl_append]
    rw [hsplit2]
    rcases hw2 : wrun (m1.set u st, d1) a with ⟨m2, d2⟩
    have hm2 : m2 u = some st := by
      have h := wrun_mem_eq u a (m1.set u st) d1 ha
      rw [hw2] at h
      exact h.trans (Ledger.set_same m1 u st)
    show (wrun (m2, m2) b).2 u = some st
    exact wrun_disk_stable u st b m2 m2 hb hm2 hm2

/-- Witness for the amended C8: a concrete successful run's persist
sits at depth 1, and a concrete two-worker interleaving
(write A, write B, persist, persist) keeps worker A's entry in the
persisted copy. -/
theorem persist_locked_no_lost_updates_witness :
    ((Event.filePersist : Event) = Event.filePersist → (1 : Nat) = 1) ∧
    (wrun (Ledger.empty, Ledger.empty)
      ([] ++ WOp.wr "https://a.com/x" "completed"
        :: ([WOp.wr "https://b.com/y" "failed"]
          ++ WOp.persistOp :: [WOp.persistOp]))).2 "https://a.com/x"
      = some "completed" :=
  ⟨(persist_locked_mem_unlocked_no_lost_updates.1 okOracle
      "https://example.com/f.zim" "/d" state0 Event.filePersist 1
      (by decide)).1,
    persist_locked_mem_unlocked_no_lost_updates.2 Ledger.empty Ledger.empty
      [] [WOp.wr "https://b.com/y" "failed"] [WOp.persistOp]
      "https://a.com/x" "completed" (by decide) (by decide)⟩

end Kiwix
